import Mathlib

/-!
# Verification of the docAgent document-classification-and-routing pipeline

This file gives a shallow embedding, in Lean 4, of the local logic of the
docAgent repository (a loan-document pipeline) and proves properties of it:

* `src/automation/1_recognize_and_place_docs.py`: keyword-based category
  detection (`detectCategory`), filename sanitization (`sanitize_filename`),
  the duplicate-filename collision loop (`chooseFilename`), the
  oracle-failure fallback of `recognize_document`, and the label scrape of
  `organize_documents_for_loan` (`scrapeLabel`).
* `src/automation/2_recognize_and_get_json.py`: the `analyze_with_llm`
  wrapper around the structuring oracle (parse failures become
  `raw_response` wrappers; a raised oracle error propagates).
* `src/automation/3_correct_the_json.py`: `clean_raw_response` and the
  per-entry repair loop (`repairEntry`, `repairRecordSet`).
* `src/automation/5_auto_form_filler_with_schema.py`: `flatten_json`.

Python strings are modelled by `String` / `List Char` (ASCII case mapping,
as all configured keywords and labels are ASCII), Python exceptions by
`Except`, and Python's `json` values by the inductive type `Json` with
numbers restricted to integers; `json_loads` models `json.loads` on that
restricted domain (inputs using float syntax are rejected; no claim below
depends on them). External oracle calls are modelled by an
`Except String String` argument holding either the oracle's text reply or
the exception it raised.

The file is organized as: all definitions first, then all theorems.
-/

namespace DocAgent

/-! ## String primitives modelling Python `str` operations -/

/-- `leadsWith n h`: the char list `n` is a leading segment of `h`. -/
def leadsWith : List Char → List Char → Bool
  | [], _ => true
  | a :: as, h =>
    match h with
    | b :: bs => a == b && leadsWith as bs
    | [] => false

/-- `occursIn n h`: `n` occurs contiguously somewhere inside `h`.
This is Python's substring test `n in h`. -/
def occursIn : List Char → List Char → Bool
  | n, [] => leadsWith n []
  | n, h :: t => leadsWith n (h :: t) || occursIn n t

/-- Python's `x in s` substring containment on strings. -/
def pyIn (x s : String) : Bool := occursIn x.data s.data

/-- Python's `str.lower()` (ASCII model, matching the ASCII keyword tables). -/
def pyLower (s : String) : String := ⟨s.data.map Char.toLower⟩

/-- Python's default `str.strip()` whitespace test. -/
def pySpace (c : Char) : Bool :=
  [' ', '\t', '\n', '\x0b', '\x0c', '\r'].contains c

/-- Python's `str.strip()`: drop leading and trailing whitespace. -/
def pyStrip (l : List Char) : List Char :=
  ((l.dropWhile pySpace).reverse.dropWhile pySpace).reverse

/-- Python's `s.split(":")` on char lists (used by the label scrape). -/
def splitOnColon : List Char → List (List Char)
  | [] => [[]]
  | ':' :: r => [] :: splitOnColon r
  | c :: r =>
    match splitOnColon r with
    | h :: t => (c :: h) :: t
    | [] => [[c]]

/-! ## Keyword tables from `1_recognize_and_place_docs.py` (lines 26-50) -/

def IDENTITY_PROOF : List String :=
  ["voter id", "passport", "driving license", "pan card", "employee id"]

def ADDRESS_PROOF : List String :=
  ["passport", "ration card", "voter id", "employee id",
   "driving license", "telephone bill", "gas bill", "aadhaar", "aadhar card"]

def AGE_PROOF : List String :=
  ["school leaving certificate", "passport", "driving license", "voter id",
   "birth certificate", "lic policy", "pan card", "aadhaar", "aadhar card"]

/-- All keyword phrases of `KYC_DOCS.values()`, in dict-value order. -/
def KYC_ALL : List String := IDENTITY_PROOF ++ ADDRESS_PROOF ++ AGE_PROOF

def INCOME_DOCS : List String :=
  ["salary slip", "form 16", "bank statement", "income tax return", "payslip"]

def PROPERTY_DOCS : List String :=
  ["sale deed", "agreement", "property tax", "electricity bill",
   "possession letter", "allotment letter"]

def BUSINESS_PROOF : List String :=
  ["gst certificate", "shop act license", "partnership deed", "udhyam registration"]

/-- Every configured keyword, over all four category tables. -/
def ALL_KEYWORDS : List String :=
  KYC_ALL ++ INCOME_DOCS ++ PROPERTY_DOCS ++ BUSINESS_PROOF

/-- The category-detection half of `categorize_and_move`
(`1_recognize_and_place_docs.py`, lines 104-116): lower-case the label and
test the keyword tables by substring containment, in fixed priority order,
falling back to `"Others"`. -/
def detectCategory (doc_type : String) : String :=
  if KYC_ALL.any (fun x => pyIn x (pyLower doc_type)) then "KYC Docs"
  else if INCOME_DOCS.any (fun x => pyIn x (pyLower doc_type)) then "Income Docs"
  else if PROPERTY_DOCS.any (fun x => pyIn x (pyLower doc_type)) then "Property Docs"
  else if BUSINESS_PROOF.any (fun x => pyIn x (pyLower doc_type)) then "Business Proof"
  else "Others"

/-! ## Filename sanitization and the duplicate-suffix collision loop
(`1_recognize_and_place_docs.py`, lines 95-98 and 122-131) -/

/-- `sanitize_filename`: lower-case, spaces to underscores, then drop every
character outside `[a-z0-9_]` (the `re.sub(r'[^a-z0-9_]', '', name)` step). -/
def sanitize_filename (name : String) : String :=
  ⟨(((name.data.map Char.toLower).map (fun c => if c = ' ' then '_' else c)).filter
    (fun c => c.isLower || c.isDigit || c == '_'))⟩

/-- The candidate filename tried at loop counter `k` in `categorize_and_move`:
`f"{clean_name}{ext}"` for the initial `counter = 1`, and
`f"{clean_name}_{counter}{ext}"` once the loop has incremented. -/
def candName (clean ext : String) (k : Nat) : String :=
  if k = 1 then clean ++ ext else clean ++ "_" ++ Nat.repr k ++ ext

/-- The `while (folder_path / new_filename).exists()` loop of
`categorize_and_move`, with the destination folder's current contents
modelled as the list `existing`. The fuel argument only bounds recursion;
`exists_candidate_free` below shows `existing.length + 1` fuel always
suffices to reach a free name, so the fuel-exhausted arm is unreachable
from `chooseFilename`. -/
def collideLoop (existing : List String) (clean ext : String) : Nat → Nat → String
  | counter, fuel + 1 =>
    if candName clean ext counter ∈ existing then
      collideLoop existing clean ext (counter + 1) fuel
    else candName clean ext counter
  | counter, 0 => candName clean ext counter

/-- The filename `categorize_and_move` finally moves the document to,
relative to a destination folder currently holding `existing`. -/
def chooseFilename (existing : List String) (clean ext : String) : String :=
  collideLoop existing clean ext 1 (existing.length + 1)

/-- Sequential routing of several documents (given as sanitized-name /
extension pairs) into one destination folder: each move adds the chosen
filename to the folder's contents, which the next collision check sees. -/
def routeAll (existing : List String) : List (String × String) → List String
  | [] => existing
  | (c, e) :: rest => routeAll (chooseFilename existing c e :: existing) rest

/-- The decimal digit string of `n`, big-endian, as produced by `Nat.repr`
(used to reason about the distinctness of collision-loop candidates). -/
def rdigits (n : Nat) : List Char :=
  if n = 0 then ['0'] else ((Nat.digits 10 n).map Nat.digitChar).reverse

/-! ## Python `json` values -/

/-- Python's `json` data model (numbers restricted to integers). -/
inductive Json where
  | null : Json
  | bool (b : Bool) : Json
  | num (n : Int) : Json
  | str (s : String) : Json
  | arr (elems : List Json) : Json
  | obj (fields : List (String × Json)) : Json

/-! ## A model of `json.loads` (recursive-descent, fuel-bounded)

The fuel only bounds recursion depth; the generous bound in `json_loads`
is never exhausted on the concrete inputs used below, and no theorem
depends on the parser's behaviour beyond it being a fixed function. -/

def jsonWs (c : Char) : Bool := [' ', '\t', '\n', '\r'].contains c

def skipWs (l : List Char) : List Char := l.dropWhile jsonWs

/-- The JSON string escape table (`\uXXXX` is outside the modelled domain). -/
def escTable : List (Char × Char) :=
  [('"', '"'), ('\\', '\\'), ('/', '/'), ('n', '\n'),
   ('t', '\t'), ('r', '\r'), ('b', '\x08'), ('f', '\x0c')]

/-- Resolve one escape character through `escTable`. -/
def escChar (e : Char) : Option Char :=
  (escTable.find? (fun p => p.1 == e)).map Prod.snd

/-- Parse the body of a JSON string after its opening quote. -/
def strChars : List Char → Option (List Char × List Char)
  | [] => none
  | '"' :: r => some ([], r)
  | '\\' :: e :: r =>
    match escChar e with
    | some c => (strChars r).map (fun p => (c :: p.1, p.2))
    | none => none
  | c :: r => (strChars r).map (fun p => (c :: p.1, p.2))

def digitVal (c : Char) : Nat := c.toNat - 48

def natOfDigits (ds : List Char) : Nat := ds.foldl (fun a c => a * 10 + digitVal c) 0

/-- Detects float/exponent syntax, which this integer-only model rejects. -/
def numTail : List Char → Bool
  | '.' :: _ => true
  | 'e' :: _ => true
  | 'E' :: _ => true
  | _ => false

/-- The JSON literal keywords `null` / `true` / `false`. -/
def litTable : List (List Char × Json) :=
  [("null".data, Json.null), ("true".data, Json.bool true), ("false".data, Json.bool false)]

def parseNumberFrom (l : List Char) : Option (Int × List Char) :=
  match l with
  | '-' :: r =>
    let ds := r.takeWhile Char.isDigit
    let rest := r.dropWhile Char.isDigit
    if ds.isEmpty || numTail rest then none else some (-(natOfDigits ds : Int), rest)
  | _ =>
    let ds := l.takeWhile Char.isDigit
    let rest := l.dropWhile Char.isDigit
    if ds.isEmpty || numTail rest then none else some ((natOfDigits ds : Int), rest)

mutual

def parseValue : Nat → List Char → Option (Json × List Char)
  | 0, _ => none
  | fuel + 1, l =>
    match skipWs l with
    | '"' :: r => (strChars r).map (fun p => (.str ⟨p.1⟩, p.2))
    | '\x7b' :: r => parseObjRest fuel r
    | '[' :: r => parseArrRest fuel r
    | l2 =>
      match litTable.find? (fun p => leadsWith p.1 l2) with
      | some p => some (p.2, l2.drop p.1.length)
      | none => (parseNumberFrom l2).map (fun p => (.num p.1, p.2))

def parseObjRest : Nat → List Char → Option (Json × List Char)
  | 0, _ => none
  | fuel + 1, l =>
    match skipWs l with
    | '\x7d' :: r => some (.obj [], r)
    | _ => (parseMembersFrom fuel l).map (fun p => (.obj p.1, p.2))

def parseMembersFrom : Nat → List Char → Option (List (String × Json) × List Char)
  | 0, _ => none
  | fuel + 1, l =>
    match skipWs l with
    | '"' :: r =>
      match strChars r with
      | none => none
      | some (key, r2) =>
        match skipWs r2 with
        | ':' :: r3 =>
          match parseValue fuel r3 with
          | none => none
          | some (v, r4) =>
            match skipWs r4 with
            | ',' :: r5 =>
              (parseMembersFrom fuel r5).map (fun p => ((⟨key⟩, v) :: p.1, p.2))
            | '\x7d' :: r5 => some ([(⟨key⟩, v)], r5)
            | _ => none
        | _ => none
    | _ => none

def parseArrRest : Nat → List Char → Option (Json × List Char)
  | 0, _ => none
  | fuel + 1, l =>
    match skipWs l with
    | ']' :: r => some (.arr [], r)
    | _ => (parseItemsFrom fuel l).map (fun p => (.arr p.1, p.2))

def parseItemsFrom : Nat → List Char → Option (List Json × List Char)
  | 0, _ => none
  | fuel + 1, l =>
    match parseValue fuel l with
    | none => none
    | some (v, r) =>
      match skipWs r with
      | ',' :: r2 => (parseItemsFrom fuel r2).map (fun p => (v :: p.1, p.2))
      | ']' :: r2 => some ([v], r2)
      | _ => none

end

/-- Model of Python's `json.loads`: parse one value, then require only
whitespace to remain; `None` models a raised `json.JSONDecodeError`. -/
def json_loads (s : String) : Option Json :=
  match parseValue (4 * s.data.length + 8) s.data with
  | some (j, rest) => if skipWs rest = [] then some j else none
  | none => none

/-! ## `clean_raw_response` from `3_correct_the_json.py` (lines 5-9) -/

/-- Case-insensitive character comparison for the `json` of a code fence
(the `re.IGNORECASE` flag). -/
def lcEq (c d : Char) : Bool := c.toLower == d

/-- One left-to-right pass of
`re.sub(r"` ``` `(?:json)?", "", text, flags=re.IGNORECASE)`: at a match
position consume three backticks plus an optional case-insensitive `json`;
otherwise emit the character and advance. -/
def fenceScan : List Char → List Char
  | '`' :: '`' :: '`' :: j :: s :: o :: n :: rest =>
    if lcEq j 'j' && lcEq s 's' && lcEq o 'o' && lcEq n 'n' then fenceScan rest
    else fenceScan (j :: s :: o :: n :: rest)
  | '`' :: '`' :: '`' :: rest => fenceScan rest
  | c :: rest => c :: fenceScan rest
  | [] => []

/-- The `cleaned.replace("` ``` `", "")` pass: remove every remaining
(left-to-right, non-overlapping) triple-backtick occurrence. -/
def tickScan : List Char → List Char
  | '`' :: '`' :: '`' :: rest => tickScan rest
  | c :: rest => c :: tickScan rest
  | [] => []

/-- `clean_raw_response`: strip fence markers, then `.strip()`. -/
def clean_raw_response (text : String) : String :=
  ⟨pyStrip (tickScan (fenceScan text.data))⟩

/-- No triple-backtick run occurs inside `l` (invariant of cleaned text). -/
def noTriple (l : List Char) : Prop := ¬ (['`', '`', '`'] <:+: l)

/-- Number of leading backticks. -/
def leadTicks : List Char → Nat
  | [] => 0
  | c :: r => if c = '`' then leadTicks r + 1 else 0

/-! ## The repair loop of `3_correct_the_json.py` (lines 33-47) -/

/-- Python dict key lookup `content["raw_response"]` on a field list
(keys of a parsed JSON object are unique, so first-match lookup agrees). -/
def lookupField : List (String × Json) → String → Option Json
  | [], _ => none
  | (k, v) :: rest, key => if k = key then some v else lookupField rest key

/-- One iteration of the repair loop body, for a single entry `content`:
if it is a dict containing the key `"raw_response"`, clean the raw text and
re-parse it (keeping a cleaned wrapper on failure); otherwise copy the
entry as-is. A non-string `raw_response` value makes `re.sub` raise a
`TypeError`, modelled by `Except.error`. -/
def repairEntry (content : Json) : Except String Json :=
  match content with
  | .obj fields =>
    match lookupField fields "raw_response" with
    | some (.str raw_text) =>
      match json_loads (clean_raw_response raw_text) with
      | some corrected => .ok corrected
      | none => .ok (.obj [("raw_response", .str (clean_raw_response raw_text))])
    | some _ => .error "TypeError"
    | none => .ok content
  | _ => .ok content

/-- The whole `for file_name, content in data.items()` repair loop: build
`corrected_data` entry by entry, propagating any raised exception. -/
def repairRecordSet : List (String × Json) → Except String (List (String × Json))
  | [] => .ok []
  | (k, v) :: rest =>
    match repairEntry v with
    | .error e => .error e
    | .ok v2 =>
      match repairRecordSet rest with
      | .error e => .error e
      | .ok rest2 => .ok ((k, v2) :: rest2)

/-- The condition the code actually tests:
`isinstance(content, dict) and "raw_response" in content`. -/
def isRawWrapper : Json → Bool
  | .obj fields => (lookupField fields "raw_response").isSome
  | _ => false

/-- Modelled from the spec's words for claim C8: an entry that is *exactly*
the bare wrapper `{"raw_response": text}` — a one-field mapping whose only
key is `raw_response` with a string value. Compared against the weaker
condition `isRawWrapper` that the code tests. -/
def isBareWrapper : Json → Bool
  | .obj [(k, .str _)] => k == "raw_response"
  | _ => false

/-! ## Oracle-call wrappers -/

/-- `recognize_document` from `1_recognize_and_place_docs.py` (lines 85-92),
as a function of the classification oracle's outcome: a reply is stripped
and returned; a raised error is caught and replaced by the literal
fallback string `'{"document_type": "unknown"}'`. -/
def recognize_document (oracle : Except String String) : String :=
  match oracle with
  | .ok text => ⟨pyStrip text.data⟩
  | .error _ => "\x7b\"document_type\": \"unknown\"\x7d"

/-- The label scrape in `organize_documents_for_loan`
(`1_recognize_and_place_docs.py`, lines 173-178):
`result.split(":")[-1].replace("` `}` `", "").replace('"', "").strip()`. -/
def scrapeLabel (result : String) : String :=
  ⟨pyStrip ((((splitOnColon result.data).getLastD []).filter
    (fun c => c != '\x7d')).filter (fun c => c != '"'))⟩

/-- `analyze_with_llm` from `2_recognize_and_get_json.py` (lines 50-72), as
a function of the structuring oracle's outcome. The `generate_content` call
sits *outside* the `try`, so a raised oracle error propagates; only a
`json.JSONDecodeError` of the reply text is caught and degraded to a
`raw_response` wrapper. -/
def analyze_with_llm (oracle : Except String String) : Except String Json :=
  match oracle with
  | .error e => .error e
  | .ok text =>
    match json_loads text with
    | some data => .ok data
    | none => .ok (.obj [("raw_response", .str text)])

/-! ## `flatten_json` from `5_auto_form_filler_with_schema.py` (lines 27-41) -/

/-- The key built for a child `k`: `f"{parent_key}{sep}{k}" if parent_key
else k`. -/
def joinKey (parent_key sep k : String) : String :=
  if parent_key = "" then k else parent_key ++ sep ++ k

mutual

/-- The `for k, v in data.items()` loop of `flatten_json`, producing the
`items` list before the final `dict(items)` conversion. -/
def flattenFields (parent_key sep : String) : List (String × Json) → List (String × Json)
  | [] => []
  | (k, v) :: rest =>
    flattenOne (joinKey parent_key sep k) sep v ++ flattenFields parent_key sep rest

/-- Dispatch on one value `v` under its already-joined key `new_key`. -/
def flattenOne (new_key sep : String) : Json → List (String × Json)
  | .obj fs => flattenFields new_key sep fs
  | .arr xs => flattenElems new_key sep 0 xs
  | v => [(new_key, v)]

/-- The `for i, item in enumerate(v)` loop: dict elements recurse under
`f"{new_key}[{i}]"`; any other element is appended as-is under that key. -/
def flattenElems (new_key sep : String) : Nat → List Json → List (String × Json)
  | _, [] => []
  | i, .obj fs :: xs =>
    flattenFields (new_key ++ "[" ++ Nat.repr i ++ "]") sep fs ++
      flattenElems new_key sep (i + 1) xs
  | i, x :: xs =>
    (new_key ++ "[" ++ Nat.repr i ++ "]", x) :: flattenElems new_key sep (i + 1) xs

end

/-- Python `dict` insertion: an existing key is overwritten in place, a new
key is appended. -/
def dictInsert (d : List (String × Json)) (k : String) (v : Json) : List (String × Json) :=
  if d.any (fun p => p.1 == k) then
    d.map (fun p => if p.1 == k then (k, v) else p)
  else d ++ [(k, v)]

/-- The `dict(items)` conversion closing `flatten_json`. -/
def dictOf (items : List (String × Json)) : List (String × Json) :=
  items.foldl (fun d kv => dictInsert d kv.1 kv.2) []

/-- `flatten_json(data, parent_key, sep)` (the source defaults are
`parent_key = ""` and `sep = "."`). -/
def flatten_json (data : List (String × Json)) (parent_key sep : String) :
    List (String × Json) :=
  dictOf (flattenFields parent_key sep data)

mutual

/-- The leaf values of a field list, in the traversal order of
`flatten_json` (the values that end up in the `items` list). -/
def leavesFields : List (String × Json) → List Json
  | [] => []
  | (_, v) :: rest => leavesOne v ++ leavesFields rest

def leavesOne : Json → List Json
  | .obj fs => leavesFields fs
  | .arr xs => leavesElems xs
  | v => [v]

def leavesElems : List Json → List Json
  | [] => []
  | .obj fs :: xs => leavesFields fs ++ leavesElems xs
  | x :: xs => x :: leavesElems xs

end

/-- A mapping value (what `isinstance(v, dict)` tests). -/
def isDict : Json → Bool
  | .obj _ => true
  | _ => false

/-- A container value: mapping or sequence; anything else is a leaf. -/
def isContainer : Json → Bool
  | .obj _ => true
  | .arr _ => true
  | _ => false

/-! # Theorems -/

/-! ## Substring-test correspondence -/

theorem within_of_leading (a b : List Char) (h : a <+: b) : a <:+: b := by
  obtain ⟨t, ht⟩ := h
  exact ⟨[], t, by simpa using ht⟩

theorem within_of_trailing (a b : List Char) (h : a <:+ b) : a <:+: b := by
  obtain ⟨t, ht⟩ := h
  exact ⟨t, [], by simpa using ht⟩

theorem leadsWith_iff (n h : List Char) : leadsWith n h = true ↔ n <+: h := by
  induction n generalizing h with
  | nil => simp [leadsWith]
  | cons a as ih =>
    cases h with
    | nil => simp [leadsWith]
    | cons b bs =>
      rw [List.cons_prefix_cons]
      simp [leadsWith, ih, eq_comm (a := a) (b := b), and_comm]

theorem occursIn_iff (n h : List Char) : occursIn n h = true ↔ n <:+: h := by
  induction h with
  | nil =>
    simp [occursIn, leadsWith_iff, List.prefix_nil, List.infix_nil]
  | cons b bs ih =>
    rw [List.infix_cons_iff]
    simp [occursIn, leadsWith_iff, ih]

/-! ## C1 and C2: keyword routing -/

/-- C1. For every label that contains (case-insensitively) any keyword of any
of the three KYC keyword lists as a substring, the detected category is
`"KYC Docs"`; the KYC test comes first in `categorize_and_move`, so this
holds regardless of which other categories' keywords the label also
contains. -/
theorem C1_kyc_keyword_routes_to_kyc (L kw : String)
    (hkw : kw ∈ KYC_ALL) (hsub : kw.data <:+: (pyLower L).data) :
    detectCategory L = "KYC Docs" := by
  unfold detectCategory
  rw [if_pos]
  exact List.any_eq_true.mpr ⟨kw, hkw, (occursIn_iff _ _).mpr hsub⟩

/-- Witness for C1 at a concrete input: the label `"Aadhaar Salary Slip"`
contains the KYC keyword `"aadhaar"` (and also the Income keyword
`"salary slip"`), and is routed to `"KYC Docs"`. -/
theorem C1_witness :
    "aadhaar" ∈ KYC_ALL ∧
    "aadhaar".data <:+: (pyLower "Aadhaar Salary Slip").data ∧
    detectCategory "Aadhaar Salary Slip" = "KYC Docs" :=
  ⟨by decide, by decide,
    C1_kyc_keyword_routes_to_kyc "Aadhaar Salary Slip" "aadhaar" (by decide) (by decide)⟩

/-- C2. If no configured keyword of any category occurs (case-insensitively)
as a substring of the label, the detected category is `"Others"`; moreover
every label whatsoever is assigned exactly one category from the fixed set
`{KYC Docs, Income Docs, Property Docs, Business Proof, Others}`. -/
theorem C2_others_fallback (L : String)
    (h : ∀ kw ∈ ALL_KEYWORDS, ¬ kw.data <:+: (pyLower L).data) :
    detectCategory L = "Others" ∧
      ∀ M : String, detectCategory M ∈
        ["KYC Docs", "Income Docs", "Property Docs", "Business Proof", "Others"] := by
  constructor
  · have hany : ∀ T : List String, (∀ kw ∈ T, kw ∈ ALL_KEYWORDS) →
        (T.any (fun x => pyIn x (pyLower L))) = false := by
      intro T hT
      apply List.any_eq_false.mpr
      intro kw hkwT
      have := h kw (hT kw hkwT)
      simp only [pyIn]
      intro hc
      exact this ((occursIn_iff _ _).mp hc)
    unfold detectCategory
    rw [if_neg, if_neg, if_neg, if_neg]
    · intro hc
      exact (Bool.eq_false_iff.mp
        (hany BUSINESS_PROOF (by intro kw hk; simp [ALL_KEYWORDS]; tauto))) hc
    · intro hc
      exact (Bool.eq_false_iff.mp
        (hany PROPERTY_DOCS (by intro kw hk; simp [ALL_KEYWORDS]; tauto))) hc
    · intro hc
      exact (Bool.eq_false_iff.mp
        (hany INCOME_DOCS (by intro kw hk; simp [ALL_KEYWORDS]; tauto))) hc
    · intro hc
      exact (Bool.eq_false_iff.mp
        (hany KYC_ALL (by intro kw hk; simp [ALL_KEYWORDS]; tauto))) hc
  · intro M
    unfold detectCategory
    split
    · simp
    · split
      · simp
      · split
        · simp
        · split <;> simp

/-- Witness for C2 at a concrete input: no keyword matches the label
`"unknown"`, and its category is `"Others"`. -/
theorem C2_witness :
    (∀ kw ∈ ALL_KEYWORDS, ¬ kw.data <:+: (pyLower "unknown").data) ∧
    detectCategory "unknown" = "Others" :=
  ⟨by decide, (C2_others_fallback "unknown" (by decide)).1⟩

/-! ## Decimal-representation facts (distinctness of `_2`, `_3`, … names) -/

theorem toDigitsCore_eq : ∀ (f n : Nat) (acc : List Char), n < f →
    Nat.toDigitsCore 10 f n acc = rdigits n ++ acc := by
  intro f
  induction f with
  | zero => intro n acc h; omega
  | succ fuel ih =>
    intro n acc h
    show (if n / 10 = 0 then Nat.digitChar (n % 10) :: acc
          else Nat.toDigitsCore 10 fuel (n / 10) (Nat.digitChar (n % 10) :: acc)) = _
    by_cases h0 : n / 10 = 0
    · rw [if_pos h0]
      by_cases hn : n = 0
      · subst hn; simp [rdigits]; decide
      · have hlt : n < 10 := by omega
        have : Nat.digits 10 n = [n % 10] := by
          rw [Nat.digits_def' (by norm_num : 1 < 10) (Nat.pos_of_ne_zero hn), h0]
          simp
        simp [rdigits, hn, this]
    · rw [if_neg h0]
      have hnz : n ≠ 0 := by
        intro hc; subst hc; simp at h0
      have hlt : n / 10 < fuel := by
        have : n / 10 < n := Nat.div_lt_self (Nat.pos_of_ne_zero hnz) (by norm_num)
        omega
      rw [ih (n / 10) (Nat.digitChar (n % 10) :: acc) hlt]
      have hd : Nat.digits 10 n = n % 10 :: Nat.digits 10 (n / 10) :=
        Nat.digits_def' (by norm_num : 1 < 10) (Nat.pos_of_ne_zero hnz)
      simp [rdigits, hnz, h0, hd]

theorem digitChar_inj_lt (a b : Nat) (ha : a < 10) (hb : b < 10)
    (h : Nat.digitChar a = Nat.digitChar b) : a = b := by
  have : ∀ x y : Fin 10, Nat.digitChar x.val = Nat.digitChar y.val → x.val = y.val := by decide
  exact this ⟨a, ha⟩ ⟨b, hb⟩ h

theorem map_digitChar_inj : ∀ (l1 l2 : List Nat), (∀ x ∈ l1, x < 10) → (∀ x ∈ l2, x < 10) →
    l1.map Nat.digitChar = l2.map Nat.digitChar → l1 = l2 := by
  intro l1
  induction l1 with
  | nil => intro l2 _ _ h; cases l2 <;> simp_all
  | cons a as ih =>
    intro l2 h1 h2 h
    cases l2 with
    | nil => simp at h
    | cons b bs =>
      simp only [List.map_cons, List.cons.injEq] at h
      have ha := h1 a (by simp)
      have hb := h2 b (by simp)
      rw [digitChar_inj_lt a b ha hb h.1,
        ih bs (fun x hx => h1 x (by simp [hx])) (fun x hx => h2 x (by simp [hx])) h.2]

theorem rdigits_inj (m n : Nat) (h : rdigits m = rdigits n) : m = n := by
  by_cases hm : m = 0 <;> by_cases hn : n = 0
  · omega
  · exfalso
    rw [rdigits, if_pos hm, rdigits, if_neg hn] at h
    have hlen : (Nat.digits 10 n).length = 1 := by
      have := congrArg List.length h
      simpa using this.symm
    obtain ⟨d, hd⟩ := List.length_eq_one.mp hlen
    rw [hd] at h
    simp at h
    have hdlt : d < 10 := Nat.digits_lt_base (by norm_num) (by rw [hd]; simp)
    have hd0 : d = 0 := by
      have h0 : Nat.digitChar 0 = '0' := by decide
      exact digitChar_inj_lt d 0 hdlt (by norm_num) (by rw [← h, h0])
    have hofd := Nat.ofDigits_digits 10 n
    rw [hd, hd0] at hofd
    simp at hofd
    exact hn hofd.symm
  · exfalso
    rw [rdigits, if_neg hm, rdigits, if_pos hn] at h
    have hlen : (Nat.digits 10 m).length = 1 := by
      have := congrArg List.length h
      simpa using this
    obtain ⟨d, hd⟩ := List.length_eq_one.mp hlen
    rw [hd] at h
    simp at h
    have hdlt : d < 10 := Nat.digits_lt_base (by norm_num) (by rw [hd]; simp)
    have hd0 : d = 0 := by
      have h0 : Nat.digitChar 0 = '0' := by decide
      exact digitChar_inj_lt d 0 hdlt (by norm_num) (by rw [h, h0])
    have hofd := Nat.ofDigits_digits 10 m
    rw [hd, hd0] at hofd
    simp at hofd
    exact hm hofd.symm
  · rw [rdigits, if_neg hm, rdigits, if_neg hn] at h
    have := List.reverse_injective h
    have hdig := map_digitChar_inj _ _
      (fun x hx => Nat.digits_lt_base (by norm_num) hx)
      (fun x hx => Nat.digits_lt_base (by norm_num) hx) this
    exact Nat.digits.injective 10 hdig

theorem natRepr_inj (m n : Nat) (h : Nat.repr m = Nat.repr n) : m = n := by
  have hm : Nat.repr m = (rdigits m).asString := by
    show (Nat.toDigits 10 m).asString = _
    rw [Nat.toDigits, toDigitsCore_eq (m + 1) m [] (by omega)]
    simp
  have hn : Nat.repr n = (rdigits n).asString := by
    show (Nat.toDigits 10 n).asString = _
    rw [Nat.toDigits, toDigitsCore_eq (n + 1) n [] (by omega)]
    simp
  rw [hm, hn] at h
  apply rdigits_inj
  have : ∀ l1 l2 : List Char, l1.asString = l2.asString → l1 = l2 := by
    intro l1 l2 hh
    have := congrArg String.data hh
    simpa [List.asString] using this
  exact this _ _ h

theorem natRepr_data_inj (m n : Nat) (h : (Nat.repr m).data = (Nat.repr n).data) : m = n := by
  apply natRepr_inj
  cases hm : Nat.repr m
  cases hn : Nat.repr n
  rw [hm, hn] at h
  simp at h
  rw [h]

theorem candName_data (clean ext : String) (k : Nat) (hk : k ≠ 1) :
    (candName clean ext k).data = clean.data ++ '_' :: ((Nat.repr k).data ++ ext.data) := by
  simp [candName, hk, String.data_append]

theorem candName_inj (clean ext : String) (j k : Nat)
    (h : candName clean ext j = candName clean ext k) : j = k := by
  have hd := congrArg String.data h
  by_cases hj1 : j = 1 <;> by_cases hk1 : k = 1
  · rw [hj1, hk1]
  · exfalso
    rw [hj1] at hd
    rw [candName_data clean ext k hk1] at hd
    simp [candName, String.data_append] at hd
    have := congrArg List.length hd
    simp at this
    omega
  · exfalso
    rw [hk1] at hd
    rw [candName_data clean ext j hj1] at hd
    simp [candName, String.data_append] at hd
    have := congrArg List.length hd
    simp at this
    omega
  · rw [candName_data clean ext j hj1, candName_data clean ext k hk1] at hd
    have h1 := List.append_cancel_left hd
    simp only [List.cons.injEq, true_and] at h1
    have h2 := List.append_cancel_right h1
    exact natRepr_data_inj j k h2

/-- Pigeonhole: among the first `existing.length + 1` candidate names, at
least one is not already taken, so the `while` loop always escapes within
the fuel `chooseFilename` provides. -/
theorem exists_candidate_free (existing : List String) (clean ext : String) :
    ∃ k, 1 ≤ k ∧ k ≤ existing.length + 1 ∧ candName clean ext k ∉ existing := by
  by_contra hc
  push_neg at hc
  have hsub : (Finset.Icc 1 (existing.length + 1)).image (candName clean ext) ⊆
      existing.toFinset := by
    intro s hs
    simp only [Finset.mem_image, Finset.mem_Icc] at hs
    obtain ⟨k, ⟨hk1, hk2⟩, rfl⟩ := hs
    exact List.mem_toFinset.mpr (hc k hk1 hk2)
  have hinj : Set.InjOn (candName clean ext) (Finset.Icc 1 (existing.length + 1)) := by
    intro a _ b _ hab
    exact candName_inj clean ext a b hab
  have hcard1 : ((Finset.Icc 1 (existing.length + 1)).image (candName clean ext)).card =
      existing.length + 1 := by
    rw [Finset.card_image_of_injOn hinj, Nat.card_Icc]
    omega
  have hcard2 := Finset.card_le_card hsub
  have hcard3 := existing.toFinset_card_le
  omega

theorem collideLoop_spec (existing : List String) (clean ext : String) :
    ∀ fuel counter,
      (∃ k, counter ≤ k ∧ k < counter + fuel ∧ candName clean ext k ∉ existing) →
      ∃ k, counter ≤ k ∧ collideLoop existing clean ext counter fuel = candName clean ext k ∧
        candName clean ext k ∉ existing ∧
        ∀ j, counter ≤ j → j < k → candName clean ext j ∈ existing := by
  intro fuel
  induction fuel with
  | zero =>
    intro counter h
    obtain ⟨k, h1, h2, _⟩ := h
    omega
  | succ f ih =>
    intro counter h
    obtain ⟨k, hk1, hk2, hk3⟩ := h
    by_cases hmem : candName clean ext counter ∈ existing
    · have hne : k ≠ counter := by
        intro hc
        rw [hc] at hk3
        exact hk3 hmem
      obtain ⟨kk, hkk1, hkk2, hkk3, hkk4⟩ := ih (counter + 1) ⟨k, by omega, by omega, hk3⟩
      refine ⟨kk, by omega, ?_, hkk3, ?_⟩
      · simpa [collideLoop, hmem] using hkk2
      · intro j hj1 hj2
        rcases Nat.eq_or_lt_of_le hj1 with hj | hj
        · rw [← hj]
          exact hmem
        · exact hkk4 j (by omega) hj2
    · refine ⟨counter, Nat.le_refl _, ?_, hmem, ?_⟩
      · simp [collideLoop, hmem]
      · intro j hj1 hj2
        omega

/-- `chooseFilename` returns the first free candidate: not already present,
and every earlier candidate (from counter 1 up) was taken. -/
theorem chooseFilename_spec (existing : List String) (clean ext : String) :
    ∃ k, 1 ≤ k ∧ chooseFilename existing clean ext = candName clean ext k ∧
      candName clean ext k ∉ existing ∧
      ∀ j, 1 ≤ j → j < k → candName clean ext j ∈ existing := by
  obtain ⟨k, hk1, hk2, hk3⟩ := exists_candidate_free existing clean ext
  exact collideLoop_spec existing clean ext (existing.length + 1) 1 ⟨k, hk1, by omega, hk3⟩

theorem chooseFilename_not_mem (existing : List String) (clean ext : String) :
    chooseFilename existing clean ext ∉ existing := by
  obtain ⟨k, _, heq, hfree, _⟩ := chooseFilename_spec existing clean ext
  rw [heq]
  exact hfree

theorem routeAll_nodup (docs : List (String × String)) :
    ∀ existing : List String, existing.Nodup → (routeAll existing docs).Nodup := by
  induction docs with
  | nil => intro existing h; exact h
  | cons d rest ih =>
    intro existing h
    obtain ⟨c, e⟩ := d
    exact ih _ (List.Nodup.cons (chooseFilename_not_mem existing c e) h)

/-- C3. The destination filename is the sanitized label plus the original
extension; on collision the loop appends `_2`, `_3`, … and takes the first
free candidate, so it never returns a name already in the folder, and
sequentially routed documents (with the folder contents growing at each
move) never share a final path. Concretely, label `"AADHAAR CARD"`
sanitizes to `aadhaar_card`, a `.jpg` source lands at `aadhaar_card.jpg`,
and a second identical label at `aadhaar_card_2.jpg`. -/
theorem C3_destination_filenames :
    sanitize_filename "AADHAAR CARD" = "aadhaar_card" ∧
    chooseFilename [] (sanitize_filename "AADHAAR CARD") ".jpg" = "aadhaar_card.jpg" ∧
    chooseFilename ["aadhaar_card.jpg"] (sanitize_filename "AADHAAR CARD") ".jpg" =
      "aadhaar_card_2.jpg" ∧
    (∀ (existing : List String) (clean ext : String),
      chooseFilename existing clean ext ∉ existing) ∧
    (∀ (existing : List String) (clean ext : String),
      ∃ k, 1 ≤ k ∧ chooseFilename existing clean ext = candName clean ext k ∧
        candName clean ext k ∉ existing ∧
        ∀ j, 1 ≤ j → j < k → candName clean ext j ∈ existing) ∧
    (∀ (docs : List (String × String)) (existing : List String),
      existing.Nodup → (routeAll existing docs).Nodup) :=
  ⟨by decide, by decide, by decide,
    chooseFilename_not_mem, chooseFilename_spec,
    fun docs existing h => routeAll_nodup docs existing h⟩

/-- Witness for C3 at a concrete input: routing two documents that both
sanitize to `aadhaar_card` with extension `.jpg` into an initially empty
folder yields the two distinct paths `aadhaar_card.jpg` and
`aadhaar_card_2.jpg`. -/
theorem C3_witness :
    (List.Nodup ([] : List String)) ∧
    (routeAll [] [("aadhaar_card", ".jpg"), ("aadhaar_card", ".jpg")]).Nodup ∧
    routeAll [] [("aadhaar_card", ".jpg"), ("aadhaar_card", ".jpg")] =
      ["aadhaar_card_2.jpg", "aadhaar_card.jpg"] :=
  ⟨by decide,
    C3_destination_filenames.2.2.2.2.2 [("aadhaar_card", ".jpg"), ("aadhaar_card", ".jpg")]
      [] (by decide),
    by decide⟩

/-! ## Idempotence of `clean_raw_response` -/

theorem two_ticks_leadTicks (l : List Char) (h : ['`', '`'] <+: l) : 2 ≤ leadTicks l := by
  obtain ⟨t, ht⟩ := h
  subst ht
  simp [leadTicks]

theorem noTriple_cons (c : Char) (l : List Char) (h1 : noTriple l)
    (h2 : c ≠ '`' ∨ leadTicks l ≤ 1) : noTriple (c :: l) := by
  intro hc
  rcases List.infix_cons_iff.mp hc with hp | hi
  · rw [List.cons_prefix_cons] at hp
    rcases h2 with h2 | h2
    · exact h2 hp.1.symm
    · have := two_ticks_leadTicks l hp.2
      omega
  · exact h1 hi

theorem noTriple_suffix_of_cons (c : Char) (l : List Char) (h : noTriple (c :: l)) :
    noTriple l := fun hc => h (hc.trans (within_of_trailing l (c :: l) ⟨[c], rfl⟩))

theorem leadTicks_ge2 (l : List Char) (h : 2 ≤ leadTicks l) : ∃ r, l = '`' :: '`' :: r := by
  match l with
  | [] => simp [leadTicks] at h
  | c :: r =>
    by_cases hc : c = '`'
    · subst hc
      match r with
      | [] => simp [leadTicks] at h
      | d :: r2 =>
        by_cases hd : d = '`'
        · subst hd
          exact ⟨r2, rfl⟩
        · simp [leadTicks, hd] at h
    · simp [leadTicks, hc] at h

theorem fence_inv (l : List Char) :
    noTriple (fenceScan l) ∧ leadTicks (fenceScan l) ≤ leadTicks l ∧
      leadTicks (fenceScan l) ≤ 2 := by
  induction l using fenceScan.induct with
  | case1 j s o n rest hcond ih =>
    rw [fenceScan, if_pos hcond]
    refine ⟨ih.1, ?_, ih.2.2⟩
    simp [leadTicks]
    omega
  | case2 j s o n rest hcond ih =>
    rw [fenceScan, if_neg hcond]
    refine ⟨ih.1, ?_, ih.2.2⟩
    simp [leadTicks]
    omega
  | case3 rest hshort ih =>
    rw [fenceScan.eq_2 rest hshort]
    refine ⟨ih.1, ?_, ih.2.2⟩
    simp [leadTicks]
    omega
  | case4 c rest h1 h2 ih =>
    rw [fenceScan.eq_3 c rest h1 h2]
    by_cases hc : c = '`'
    · subst hc
      have hrest : leadTicks rest ≤ 1 := by
        by_contra hcon
        obtain ⟨r1, hr1⟩ := leadTicks_ge2 rest (by omega)
        exact h2 r1 rfl hr1
      have hfr : leadTicks (fenceScan rest) ≤ 1 := le_trans ih.2.1 hrest
      refine ⟨noTriple_cons _ _ ih.1 (Or.inr hfr), ?_, ?_⟩ <;>
        · simp [leadTicks]
          omega
    · refine ⟨noTriple_cons _ _ ih.1 (Or.inl hc), ?_, ?_⟩ <;> simp [leadTicks, hc]
  | case5 =>
    refine ⟨?_, by simp [fenceScan, leadTicks], by simp [fenceScan, leadTicks]⟩
    rw [fenceScan]
    simp [noTriple, List.infix_nil]

theorem fence_eq_self (l : List Char) (h : noTriple l) : fenceScan l = l := by
  induction l using fenceScan.induct with
  | case1 j s o n rest hcond ih =>
    exact absurd (within_of_leading _ _ ⟨j :: s :: o :: n :: rest, rfl⟩) h
  | case2 j s o n rest hcond ih =>
    exact absurd (within_of_leading _ _ ⟨j :: s :: o :: n :: rest, rfl⟩) h
  | case3 rest hshort ih =>
    exact absurd (within_of_leading _ _ ⟨rest, rfl⟩) h
  | case4 c rest h1 h2 ih =>
    rw [fenceScan.eq_3 c rest h1 h2, ih (noTriple_suffix_of_cons c rest h)]
  | case5 => rfl

theorem tick_eq_self (l : List Char) (h : noTriple l) : tickScan l = l := by
  induction l using tickScan.induct with
  | case1 rest ih =>
    exact absurd (within_of_leading _ _ ⟨rest, rfl⟩) h
  | case2 c rest h1 ih =>
    rw [tickScan.eq_2 c rest h1, ih (noTriple_suffix_of_cons c rest h)]
  | case3 => rfl

theorem noTriple_of_within (a b : List Char) (hab : a <:+: b) (h : noTriple b) : noTriple a :=
  fun hc => h (hc.trans hab)

theorem dropWhile_cons_eq_false (p : Char → Bool) :
    ∀ (l : List Char) (a : Char) (t : List Char), List.dropWhile p l = a :: t → p a = false := by
  intro l
  induction l with
  | nil => intro a t h; simp [List.dropWhile] at h
  | cons c r ih =>
    intro a t h
    rw [List.dropWhile_cons] at h
    by_cases hc : p c
    · rw [if_pos hc] at h
      exact ih a t h
    · rw [if_neg hc] at h
      rw [← (List.cons.injEq ..).mp h |>.1]
      exact Bool.eq_false_iff.mpr hc

theorem dropWhile_dw (p : Char → Bool) (l : List Char) :
    List.dropWhile p (List.dropWhile p l) = List.dropWhile p l := by
  match hd : List.dropWhile p l with
  | [] => rfl
  | a :: t =>
    rw [List.dropWhile_cons, if_neg]
    rw [dropWhile_cons_eq_false p l a t hd]
    simp

theorem pyStrip_prefix_core (l : List Char) : pyStrip l <+: List.dropWhile pySpace l := by
  rw [pyStrip]
  conv_rhs => rw [← List.reverse_reverse (List.dropWhile pySpace l)]
  exact List.reverse_prefix.mpr (List.dropWhile_suffix pySpace)

theorem pyStrip_dropWhile_eq (l : List Char) :
    List.dropWhile pySpace (pyStrip l) = pyStrip l := by
  match hs : pyStrip l with
  | [] => rfl
  | a :: t =>
    have hpre : a :: t <+: List.dropWhile pySpace l := hs ▸ pyStrip_prefix_core l
    obtain ⟨u, hu⟩ := hpre
    have ha : pySpace a = false := dropWhile_cons_eq_false pySpace l a (t ++ u) hu.symm
    rw [List.dropWhile_cons, ha]
    simp

theorem pyStrip_idem (l : List Char) : pyStrip (pyStrip l) = pyStrip l := by
  show ((List.dropWhile pySpace (pyStrip l)).reverse.dropWhile pySpace).reverse = pyStrip l
  rw [pyStrip_dropWhile_eq]
  have h2 : (pyStrip l).reverse =
      List.dropWhile pySpace ((List.dropWhile pySpace l).reverse) := by
    rw [pyStrip, List.reverse_reverse]
  rw [h2, dropWhile_dw, ← h2, List.reverse_reverse]

theorem pyStrip_within (l : List Char) : pyStrip l <:+: l :=
  (within_of_leading _ _ (pyStrip_prefix_core l)).trans
    (within_of_trailing _ _ (List.dropWhile_suffix pySpace))

/-- Cleaning is idempotent: the first pass removes every fence marker, so a
second pass only re-strips an already-stripped string. -/
theorem clean_idem (t : String) :
    clean_raw_response (clean_raw_response t) = clean_raw_response t := by
  have hnt : noTriple (fenceScan t.data) := (fence_inv t.data).1
  have htick : tickScan (fenceScan t.data) = fenceScan t.data := tick_eq_self _ hnt
  show clean_raw_response ⟨pyStrip (tickScan (fenceScan t.data))⟩ = _
  rw [htick]
  have hnt2 : noTriple (pyStrip (fenceScan t.data)) :=
    noTriple_of_within _ _ (pyStrip_within _) hnt
  show (⟨pyStrip (tickScan (fenceScan (pyStrip (fenceScan t.data))))⟩ : String) = _
  rw [fence_eq_self _ hnt2, tick_eq_self _ hnt2, pyStrip_idem]
  rw [clean_raw_response, htick]

/-! ## Behaviour of the repair loop -/

/-- An entry that is not a dict containing `"raw_response"` passes through
the repair loop unchanged. -/
theorem repairEntry_pass (v : Json) (h : isRawWrapper v = false) : repairEntry v = .ok v := by
  cases v with
  | obj fields =>
    have : lookupField fields "raw_response" = none := by
      simp [isRawWrapper] at h
      exact Option.not_isSome_iff_eq_none.mp (by simp [h])
    simp [repairEntry, this]
  | null => rfl
  | bool b => rfl
  | num n => rfl
  | str s => rfl
  | arr xs => rfl

/-- A repaired entry is a fixed point of `repairEntry`, provided that when
its raw text parses successfully the parsed value is not itself a dict
containing `"raw_response"`. -/
theorem repairEntry_stable (v v2 : Json) (h : repairEntry v = .ok v2)
    (hsafe : ∀ fields, v = Json.obj fields →
      ∀ t, lookupField fields "raw_response" = some (Json.str t) →
      ∀ j, json_loads (clean_raw_response t) = some j → isRawWrapper j = false) :
    repairEntry v2 = .ok v2 := by
  cases v with
  | obj fields =>
    cases hl : lookupField fields "raw_response" with
    | none =>
      simp [repairEntry, hl] at h
      rw [← h]
      simp [repairEntry, hl]
    | some w =>
      cases w with
      | str t =>
        cases hp : json_loads (clean_raw_response t) with
        | some j =>
          simp [repairEntry, hl, hp] at h
          rw [← h]
          exact repairEntry_pass j (hsafe fields rfl t hl j hp)
        | none =>
          simp [repairEntry, hl, hp] at h
          rw [← h]
          simp [repairEntry, lookupField, clean_idem, hp]
      | null => simp [repairEntry, hl] at h
      | bool b => simp [repairEntry, hl] at h
      | num n => simp [repairEntry, hl] at h
      | arr xs => simp [repairEntry, hl] at h
      | obj fs => simp [repairEntry, hl] at h
  | null => simp [repairEntry] at h; rw [← h]; rfl
  | bool b => simp [repairEntry] at h; rw [← h]; rfl
  | num n => simp [repairEntry] at h; rw [← h]; rfl
  | str s => simp [repairEntry] at h; rw [← h]; rfl
  | arr xs => simp [repairEntry] at h; rw [← h]; rfl

/-- Each output entry of the repair loop is produced from the input entry at
the same position (same key, value given by `repairEntry`), independently of
every other entry. -/
theorem repairRecordSet_entrywise : ∀ (ds ds2 : List (String × Json)),
    repairRecordSet ds = .ok ds2 →
    ds2.length = ds.length ∧ ∀ i (hi : i < ds.length) (hi2 : i < ds2.length),
      (ds2.get ⟨i, hi2⟩).1 = (ds.get ⟨i, hi⟩).1 ∧
      repairEntry (ds.get ⟨i, hi⟩).2 = .ok (ds2.get ⟨i, hi2⟩).2 := by
  intro ds
  induction ds with
  | nil =>
    intro ds2 h
    simp [repairRecordSet] at h
    subst h
    refine ⟨rfl, ?_⟩
    intro i hi hi2
    simp at hi
  | cons kv rest ih =>
    intro ds2 h
    obtain ⟨k, v⟩ := kv
    cases hv : repairEntry v with
    | error e => simp [repairRecordSet, hv] at h
    | ok v2 =>
      cases hr : repairRecordSet rest with
      | error e => simp [repairRecordSet, hv, hr] at h
      | ok rest2 =>
        simp [repairRecordSet, hv, hr] at h
        rw [← h]
        obtain ⟨hlen, hidx⟩ := ih rest2 hr
        refine ⟨by simp [hlen], ?_⟩
        intro i hi hi2
        cases i with
        | zero => exact ⟨rfl, hv⟩
        | succ m =>
          simp only [List.length_cons] at hi hi2
          exact hidx m (by omega) (by omega)

/-! ## C4: repair is *not* idempotent as claimed -/

/-- C4 counterexample. The record set whose single entry is the wrapper
`{"raw_response": "{\"raw_response\": \"5\"}"}` is repaired to the
wrapper-shaped entry `{"raw_response": "5"}`, and a second repair pass
rewrites that to the number `5`: applying the repair transformation twice
differs from applying it once, refuting the claimed idempotence. -/
theorem C4_counterexample :
    repairRecordSet
        [("file1", Json.obj [("raw_response", Json.str "\x7b\"raw_response\": \"5\"\x7d")])] =
      Except.ok [("file1", Json.obj [("raw_response", Json.str "5")])] ∧
    repairRecordSet [("file1", Json.obj [("raw_response", Json.str "5")])] =
      Except.ok [("file1", Json.num 5)] ∧
    ([("file1", Json.obj [("raw_response", Json.str "5")])] : List (String × Json)) ≠
      [("file1", Json.num 5)] :=
  ⟨rfl, rfl, by simp⟩

/-- C4 (amended). Repair is idempotent on every record set in which no
successfully re-parsed entry is itself a mapping containing the key
`"raw_response"`: under that proviso, if repairing `ds` succeeds with
`ds2`, then repairing `ds2` returns `ds2` unchanged. (Pass-through entries
are fixed points outright, and a still-unparsable entry's cleaned text is
reproduced identically because cleaning is idempotent, `clean_idem`.) -/
theorem C4_repair_idempotent_amended : ∀ (ds ds2 : List (String × Json)),
    repairRecordSet ds = .ok ds2 →
    (∀ kv ∈ ds, ∀ fields, kv.2 = Json.obj fields →
      ∀ t, lookupField fields "raw_response" = some (Json.str t) →
      ∀ j, json_loads (clean_raw_response t) = some j → isRawWrapper j = false) →
    repairRecordSet ds2 = .ok ds2 := by
  intro ds
  induction ds with
  | nil =>
    intro ds2 h _
    simp [repairRecordSet] at h
    subst h
    rfl
  | cons kv rest ih =>
    intro ds2 h hsafe
    obtain ⟨k, v⟩ := kv
    cases hv : repairEntry v with
    | error e => simp [repairRecordSet, hv] at h
    | ok v2 =>
      cases hr : repairRecordSet rest with
      | error e => simp [repairRecordSet, hv, hr] at h
      | ok rest2 =>
        simp [repairRecordSet, hv, hr] at h
        rw [← h]
        have h1 : repairEntry v2 = .ok v2 :=
          repairEntry_stable v v2 hv (hsafe (k, v) (by simp))
        have h2 : repairRecordSet rest2 = .ok rest2 :=
          ih rest2 hr (fun kv2 hkv2 => hsafe kv2 (by simp [hkv2]))
        simp [repairRecordSet, h1, h2]

/-- Witness for the amended C4 at a concrete input: a record set with one
structured entry and one wrapper whose text stays unparsable is a fixed
point of repair. -/
theorem C4_witness :
    repairRecordSet
        [("a", Json.num 3), ("b", Json.obj [("raw_response", Json.str "not json")])] =
      Except.ok
        [("a", Json.num 3), ("b", Json.obj [("raw_response", Json.str "not json")])] :=
  C4_repair_idempotent_amended
    [("a", Json.num 3), ("b", Json.obj [("raw_response", Json.str "not json")])]
    [("a", Json.num 3), ("b", Json.obj [("raw_response", Json.str "not json")])]
    (by rfl)
    (by
      intro kv hkv fields hf t ht j hj
      simp only [List.mem_cons, List.not_mem_nil, or_false] at hkv
      rcases hkv with h1 | h1
      · rw [h1] at hf
        simp at hf
      · rw [h1] at hf
        simp only [Json.obj.injEq] at hf
        rw [← hf] at ht
        simp only [lookupField, if_pos] at ht
        have ht2 : t = "not json" := by
          simp at ht
          exact ht.symm
        rw [ht2] at hj
        rw [show json_loads (clean_raw_response "not json") = none from rfl] at hj
        exact Option.noConfusion hj)

/-! ## C8: what the repair loop actually rewrites -/

/-- C8 counterexample. The entry `{"raw_response": "5", "extra": 1}` is not
the bare wrapper (it has a second key), yet the repair loop does *not* pass
it through unchanged: it rewrites it to the parsed value `5`, discarding
the sibling key. This refutes the claim that only exact bare wrappers are
rewritten. -/
theorem C8_counterexample :
    isBareWrapper (Json.obj [("raw_response", Json.str "5"), ("extra", Json.num 1)]) = false ∧
    repairEntry (Json.obj [("raw_response", Json.str "5"), ("extra", Json.num 1)]) =
      Except.ok (Json.num 5) ∧
    Except.ok (Json.num 5) ≠
      (Except.ok (Json.obj [("raw_response", Json.str "5"), ("extra", Json.num 1)]) :
        Except String Json) :=
  ⟨rfl, rfl, by simp⟩

/-- C8 (amended). The repair loop rewrites an entry exactly when it is a
mapping containing the key `"raw_response"` (sibling keys, if any, are
discarded by the rewrite); every entry that is not such a mapping passes
through unchanged, and each output entry depends only on the input entry at
the same position (same key, value given by `repairEntry`), so no other
entry of the record set is affected. -/
theorem C8_rewrite_condition_amended :
    (∀ v : Json, isRawWrapper v = false → repairEntry v = Except.ok v) ∧
    (∀ ds ds2 : List (String × Json), repairRecordSet ds = Except.ok ds2 →
      ds2.length = ds.length ∧ ∀ i (hi : i < ds.length) (hi2 : i < ds2.length),
        (ds2.get ⟨i, hi2⟩).1 = (ds.get ⟨i, hi⟩).1 ∧
        repairEntry (ds.get ⟨i, hi⟩).2 = Except.ok (ds2.get ⟨i, hi2⟩).2) :=
  ⟨repairEntry_pass, repairRecordSet_entrywise⟩

/-- Witness for the amended C8 at concrete inputs: a non-wrapper entry is
passed through unchanged, and the entrywise description holds on a
one-entry record set. -/
theorem C8_witness :
    isRawWrapper (Json.num 7) = false ∧
    repairEntry (Json.num 7) = Except.ok (Json.num 7) ∧
    repairEntry Json.null = Except.ok Json.null :=
  ⟨rfl, C8_rewrite_condition_amended.1 (Json.num 7) rfl,
    ((C8_rewrite_condition_amended.2 [("k", Json.null)] [("k", Json.null)] rfl).2 0
      (by decide) (by decide)).2⟩

/-! ## C9 and C7: error propagation and the classification fallback -/

/-- C9 counterexample. In `analyze_with_llm` the structuring-oracle call
sits outside the `try`, so a raised network error propagates to the caller
instead of being stored as a `raw_response` wrapper — refuting the claim
that no exception crosses a document/file boundary in any stage. -/
theorem C9_counterexample :
    analyze_with_llm (Except.error "network error") = Except.error "network error" ∧
    ¬ ∃ j, analyze_with_llm (Except.error "network error") = Except.ok j :=
  ⟨rfl, by
    rintro ⟨j, hj⟩
    simp [analyze_with_llm] at hj⟩

/-- C9 (amended). Classification-oracle errors are caught inside
`recognize_document` and degrade to the literal unknown-label fallback, and
a structuring reply that fails to parse degrades (non-fatally) to a
`raw_response` wrapper — but an exception raised by the structuring-oracle
call itself propagates out of `analyze_with_llm`, so stage 2's per-file
loop is not protected against oracle errors. -/
theorem C9_error_propagation_amended (e text : String) :
    recognize_document (Except.error e) = "\x7b\"document_type\": \"unknown\"\x7d" ∧
    analyze_with_llm (Except.error e) = Except.error e ∧
    ∃ j, analyze_with_llm (Except.ok text) = Except.ok j := by
  refine ⟨rfl, rfl, ?_⟩
  cases hp : json_loads text with
  | some j => exact ⟨j, by simp [analyze_with_llm, hp]⟩
  | none =>
    exact ⟨Json.obj [("raw_response", Json.str text)], by simp [analyze_with_llm, hp]⟩

/-- C7. When the classification oracle raises, `recognize_document` returns
the literal fallback `'{"document_type": "unknown"}'` instead of
propagating the error; the downstream label scrape resolves it to
`"unknown"`, and routing then assigns `"Others"` because no configured
keyword matches `"unknown"`. -/
theorem C7_classification_fallback (err : String) :
    recognize_document (Except.error err) = "\x7b\"document_type\": \"unknown\"\x7d" ∧
    scrapeLabel (recognize_document (Except.error err)) = "unknown" ∧
    detectCategory (scrapeLabel (recognize_document (Except.error err))) = "Others" :=
  ⟨rfl, rfl, by
    show detectCategory "unknown" = "Others"
    decide⟩

/-! ## Behaviour of `flatten_json` -/

/-- The values of the item list built by `flatten_json` are exactly the
leaf values of the input, in traversal order (stated jointly for the three
mutually recursive traversals). -/
theorem flatten_map_snd :
    (∀ (p s : String) (fs : List (String × Json)),
      (flattenFields p s fs).map Prod.snd = leavesFields fs) ∧
    (∀ (k s : String) (v : Json), (flattenOne k s v).map Prod.snd = leavesOne v) ∧
    (∀ (k s : String) (i : Nat) (xs : List Json),
      (flattenElems k s i xs).map Prod.snd = leavesElems xs) := by
  apply flattenFields.mutual_induct
  · intro new_key sep fs ih
    simpa [flattenOne, leavesOne] using ih
  · intro new_key sep xs ih
    simpa [flattenOne, leavesOne] using ih
  · intro new_key sep v hobj harr
    cases v with
    | obj fs => exact absurd rfl (hobj fs)
    | arr xs => exact absurd rfl (harr xs)
    | null => simp [flattenOne, leavesOne]
    | bool b => simp [flattenOne, leavesOne]
    | num n => simp [flattenOne, leavesOne]
    | str st => simp [flattenOne, leavesOne]
  · intro new_key sep i
    simp [flattenElems, leavesElems]
  · intro new_key sep i fs xs ih1 ih2
    simp [flattenElems, leavesElems, ih1, ih2]
  · intro new_key sep i x xs hobj ih
    cases x with
    | obj fs => exact absurd rfl (hobj fs)
    | null => simp [flattenElems, leavesElems, ih]
    | bool b => simp [flattenElems, leavesElems, ih]
    | num n => simp [flattenElems, leavesElems, ih]
    | str st => simp [flattenElems, leavesElems, ih]
    | arr ys => simp [flattenElems, leavesElems, ih]
  · intro parent_key sep
    simp [flattenFields, leavesFields]
  · intro parent_key sep k v rest ih1 ih2
    simp [flattenFields, leavesFields, ih1, ih2]

theorem dictFold_app : ∀ (items acc : List (String × Json)),
    ((acc ++ items).map Prod.fst).Nodup →
    items.foldl (fun d kv => dictInsert d kv.1 kv.2) acc = acc ++ items := by
  intro items
  induction items with
  | nil =>
    intro acc _
    simp
  | cons kv rest ih =>
    intro acc h
    obtain ⟨k, v⟩ := kv
    have hmaps : ((acc.map Prod.fst) ++ (k :: rest.map Prod.fst)).Nodup := by simpa using h
    have hdisj := (List.nodup_append.mp hmaps).2.2
    have hk : k ∉ acc.map Prod.fst := fun ha => hdisj ha (by simp)
    have hins : dictInsert acc k v = acc ++ [(k, v)] := by
      rw [dictInsert, if_neg]
      intro hc
      obtain ⟨p, hp, hpk⟩ := List.any_eq_true.mp hc
      exact hk (List.mem_map.mpr ⟨p, hp, by simpa using hpk⟩)
    show List.foldl _ (dictInsert acc k v) rest = _
    rw [hins, ih (acc ++ [(k, v)]) (by simpa using h)]
    simp

/-- When the constructed paths are pairwise distinct, the closing
`dict(items)` conversion keeps the item list as-is. -/
theorem dictOf_eq_self (items : List (String × Json))
    (h : (items.map Prod.fst).Nodup) : dictOf items = items :=
  dictFold_app items [] (by simpa using h)

/-- C5. The flattening rules: the field loop emits each child under the
joined key (`parent.sep.k`, or bare `k` at the root, per `joinKey`); a
nested mapping recurses under its joined key; a sequence element that is a
mapping recurses under `key[index]`; any other sequence element (including
a nested sequence) is taken as-is under `key[index]`; any non-container
value is a leaf stored at the current path. In particular
`flatten_json {"a": [{"b": 1}, 2]} = {"a[0].b": 1, "a[1]": 2}`. -/
theorem C5_flatten_rules :
    (∀ (parent sep k : String) (v : Json) (rest : List (String × Json)),
      flattenFields parent sep ((k, v) :: rest) =
        flattenOne (joinKey parent sep k) sep v ++ flattenFields parent sep rest) ∧
    (∀ (parent sep k : String),
      joinKey parent sep k = if parent = "" then k else parent ++ sep ++ k) ∧
    (∀ (key sep : String) (fs : List (String × Json)),
      flattenOne key sep (Json.obj fs) = flattenFields key sep fs) ∧
    (∀ (key sep : String) (i : Nat) (fs : List (String × Json)) (xs : List Json),
      flattenElems key sep i (Json.obj fs :: xs) =
        flattenFields (key ++ "[" ++ Nat.repr i ++ "]") sep fs ++
          flattenElems key sep (i + 1) xs) ∧
    (∀ (key sep : String) (i : Nat) (x : Json) (xs : List Json), isDict x = false →
      flattenElems key sep i (x :: xs) =
        (key ++ "[" ++ Nat.repr i ++ "]", x) :: flattenElems key sep (i + 1) xs) ∧
    (∀ (key sep : String) (v : Json), isContainer v = false →
      flattenOne key sep v = [(key, v)]) ∧
    flatten_json [("a", Json.arr [Json.obj [("b", Json.num 1)], Json.num 2])] "" "." =
      [("a[0].b", Json.num 1), ("a[1]", Json.num 2)] := by
  refine ⟨?_, ?_, ?_, ?_, ?_, ?_, by rfl⟩
  · intro parent sep k v rest
    simp [flattenFields]
  · intro parent sep k
    simp [joinKey]
  · intro key sep fs
    simp [flattenOne]
  · intro key sep i fs xs
    simp [flattenElems]
  · intro key sep i x xs hx
    cases x with
    | obj fs => simp [isDict] at hx
    | null => simp [flattenElems]
    | bool b => simp [flattenElems]
    | num n => simp [flattenElems]
    | str st => simp [flattenElems]
    | arr ys => simp [flattenElems]
  · intro key sep v hv
    cases v with
    | obj fs => simp [isContainer] at hv
    | arr ys => simp [isContainer] at hv
    | null => simp [flattenOne]
    | bool b => simp [flattenOne]
    | num n => simp [flattenOne]
    | str st => simp [flattenOne]

/-- Witness for C5 at concrete inputs: a nested-sequence element is taken
as-is under `key[index]`, and a string value is a leaf at its path. -/
theorem C5_witness :
    isDict (Json.arr [Json.num 3]) = false ∧
    flattenElems "p" "." 0 [Json.arr [Json.num 3]] = [("p[0]", Json.arr [Json.num 3])] ∧
    isContainer (Json.str "x") = false ∧
    flattenOne "q" "." (Json.str "x") = [("q", Json.str "x")] :=
  ⟨rfl,
    (C5_flatten_rules.2.2.2.2.1 "p" "." 0 (Json.arr [Json.num 3]) [] rfl).trans (by rfl),
    rfl,
    C5_flatten_rules.2.2.2.2.2.1 "q" "." (Json.str "x") rfl⟩

/-! ## C6: leaves are preserved only when the constructed paths collide
nowhere -/

/-- C6 counterexample. On the tree-shaped input
`{"a": {"b": 1}, "a.b": 2}` both leaves construct the same path `"a.b"`,
and the later entry overwrites the earlier in the closing `dict(items)`:
the leaf `1` is lost, so flatten does not produce every leaf exactly once
under a unique path. -/
theorem C6_counterexample :
    flatten_json [("a", Json.obj [("b", Json.num 1)]), ("a.b", Json.num 2)] "" "." =
      [("a.b", Json.num 2)] ∧
    leavesFields [("a", Json.obj [("b", Json.num 1)]), ("a.b", Json.num 2)] =
      [Json.num 1, Json.num 2] ∧
    (flatten_json [("a", Json.obj [("b", Json.num 1)]), ("a.b", Json.num 2)] "" ".").map
        Prod.snd ≠
      leavesFields [("a", Json.obj [("b", Json.num 1)]), ("a.b", Json.num 2)] := by
  refine ⟨rfl, rfl, ?_⟩
  intro h
  have h2 : ([Json.num 2] : List Json) = [Json.num 1, Json.num 2] := h
  have h3 := congrArg List.length h2
  simp at h3

/-- C6 (amended). For every tree-shaped input whose constructed paths are
pairwise distinct, `flatten_json` produces every leaf value of the input
exactly once, in traversal order, each under its (unique) path — so the
path-to-value mapping recovers every original leaf with cardinality and
value equality preserved. When two constructed paths collide, the later
entry overwrites the earlier one. -/
theorem C6_flatten_leaves_amended (fs : List (String × Json))
    (h : ((flattenFields "" "." fs).map Prod.fst).Nodup) :
    (flatten_json fs "" ".").map Prod.snd = leavesFields fs ∧
    ((flatten_json fs "" ".").map Prod.fst).Nodup := by
  rw [flatten_json, dictOf_eq_self _ h]
  exact ⟨flatten_map_snd.1 "" "." fs, h⟩

/-- Witness for the amended C6 at a concrete input whose paths
(`a[0].b`, `a[1]`) are distinct. -/
theorem C6_witness :
    ((flattenFields "" "." [("a", Json.arr [Json.obj [("b", Json.num 1)], Json.num 2])]).map
        Prod.fst).Nodup ∧
    (flatten_json [("a", Json.arr [Json.obj [("b", Json.num 1)], Json.num 2])] "" ".").map
        Prod.snd =
      leavesFields [("a", Json.arr [Json.obj [("b", Json.num 1)], Json.num 2])] ∧
    ((flatten_json [("a", Json.arr [Json.obj [("b", Json.num 1)], Json.num 2])] "" ".").map
        Prod.fst).Nodup :=
  ⟨by decide,
    (C6_flatten_leaves_amended [("a", Json.arr [Json.obj [("b", Json.num 1)], Json.num 2])]
      (by decide)).1,
    (C6_flatten_leaves_amended [("a", Json.arr [Json.obj [("b", Json.num 1)], Json.num 2])]
      (by decide)).2⟩

/-- C10. A mapping key whose value is an empty mapping or an empty sequence
contributes no output entry: empty-container subtrees are silently dropped,
and in particular `flatten_json {"a": {}, "b": []}` is the empty mapping. -/
theorem C10_empty_containers_dropped :
    (∀ (parent sep k : String) (rest : List (String × Json)),
      flattenFields parent sep ((k, Json.obj []) :: rest) = flattenFields parent sep rest) ∧
    (∀ (parent sep k : String) (rest : List (String × Json)),
      flattenFields parent sep ((k, Json.arr []) :: rest) = flattenFields parent sep rest) ∧
    flatten_json [("a", Json.obj []), ("b", Json.arr [])] "" "." = [] := by
  refine ⟨?_, ?_, by rfl⟩
  · intro parent sep k rest
    simp [flattenFields, flattenOne]
  · intro parent sep k rest
    simp [flattenFields, flattenOne, flattenElems]

end DocAgent
